import Mathlib

/-!
Verification development for the file/image batch engine of the Image_editor
repository (`image_editor/core/file_manager.py` and
`image_editor/core/image_processor.py`).

The filesystem-facing Python functions are shallowly embedded: a directory
walk becomes the list of entries it yields (in walk order), a file's content
is represented by its content digest (an unreadable file carries no digest),
and each destructive call returns, besides the values the Python function
returns, the explicit list of filesystem mutations it performed.
-/

/- ## Decimal rendering of a counter, modelling Python `str(k)` for `k : Nat` -/

/-- The character for decimal digit `d`, i.e. `chr(48 + d)`. -/
def decChar (d : Nat) : Char := Char.ofNat (48 + d)

/-- Decimal digits of `n`, most significant first, by repeated division.
Fuel-based so that it is structurally recursive and kernel-reducible;
`decDigits` always supplies sufficient fuel. -/
def decDigitsAux : Nat → Nat → List Char
  | 0, _ => []
  | fuel + 1, n =>
    if n < 10 then [decChar n] else decDigitsAux fuel (n / 10) ++ [decChar (n % 10)]

/-- Decimal digits of `n`, most significant first. -/
def decDigits (n : Nat) : List Char := decDigitsAux (n + 1) n

/-- Model of Python `str(k)` for a non-negative integer `k`. -/
def natStr (n : Nat) : String := ⟨decDigits n⟩

/-- Numeric value of a decimal digit character. -/
def decVal (c : Char) : Nat := c.toNat - 48

/-- Decode a most-significant-first digit string back to a number. -/
def decodeDigits (l : List Char) : Nat := l.foldl (fun a c => 10 * a + decVal c) 0

/- ## `os.path.splitext` on a bare filename and extension normalization -/

/-- Model of `os.path.splitext` applied to a bare filename (no path
separators): the extension starts at the last dot, provided some non-dot
character occurs strictly before that dot; otherwise the extension is
empty (so `.bashrc` has no extension). -/
def pySplitext (s : String) : String × String :=
  match s.data.reverse.indexOf? '.' with
  | none => (s, "")
  | some ridx =>
    let dotIdx := s.data.length - 1 - ridx
    if (s.data.take dotIdx).any (fun c => c != '.') then
      (⟨s.data.take dotIdx⟩, ⟨s.data.drop dotIdx⟩)
    else
      (s, "")

/-- Extension normalization used by `scan_extensions` and `sort_files`:
`splitext(name)[1].lstrip('.').lower()`. -/
def normExt (name : String) : String :=
  ⟨((pySplitext name).2.data.dropWhile (fun c => c == '.')).map Char.toLower⟩

/- ## `FileManager._get_unique_filename` -/

/-- The `k`-th name probed by `_get_unique_filename`: probe 0 is the
original filename, probe `k ≥ 1` is `base(k)ext`. -/
def candidateName (original base ext : String) : Nat → String
  | 0 => original
  | k + 1 => base ++ "(" ++ natStr (k + 1) ++ ")" ++ ext

/-- The `while os.path.exists(...)` loop of `_get_unique_filename`,
scanning probe indices `k, k+1, ...`; `existing` is the set of names
present in the destination folder.  Fuel-based: `get_unique_filename`
supplies fuel `existing.length + 1`, which is shown sufficient. -/
def findUniqueAux (existing : List String) (original base ext : String) : Nat → Nat → String
  | 0, k => candidateName original base ext k
  | fuel + 1, k =>
    if candidateName original base ext k ∈ existing then
      findUniqueAux existing original base ext fuel (k + 1)
    else
      candidateName original base ext k

/-- Model of `FileManager._get_unique_filename(destination_folder,
original_filename)`; `existing` is the list of entry names present in the
destination folder (the names for which `os.path.exists` answers true). -/
def get_unique_filename (existing : List String) (original : String) : String :=
  findUniqueAux existing original (pySplitext original).1 (pySplitext original).2
    (existing.length + 1) 0

/- ## `FileManager.sort_files` -/

/-- A file in the tree under `source_dir`: `dir` is the list of path
components of its directory relative to `source_dir` (`[]` = the source
root itself), `name` its filename. -/
structure SFile where
  dir : List String
  name : String
deriving DecidableEq

/-- The destination folder name chosen by `sort_files`. -/
def sortDestName (selectedExt : String) : String :=
  if selectedExt = "no_extension" then "no_extension" else selectedExt ++ "_files"

/-- The extension test of the collection loop in `sort_files`. -/
def sortMatches (selectedExt : String) (name : String) : Bool :=
  (selectedExt = "no_extension" && normExt name = "") ||
  (selectedExt ≠ "no_extension" && normExt name = selectedExt)

/-- The selection predicate of the collection walk: the walk skips the
root equal to the destination folder itself (subfolders of the
destination are still scanned), and keeps files whose normalized
extension matches. -/
def sortSelects (selectedExt : String) (f : SFile) : Bool :=
  decide (f.dir ≠ [sortDestName selectedExt]) && sortMatches selectedExt f.name

/-- `files_to_move_info`: the files collected by the walk, in walk order. -/
def sortPlan (fs : List SFile) (selectedExt : String) : List SFile :=
  fs.filter (sortSelects selectedExt)

/-- Names present directly in the destination folder (the names for which
`os.path.exists(os.path.join(destination_folder, name))` answers true in
the modelled state). -/
def destNames (fs : List SFile) (destName : String) : List String :=
  (fs.filter (fun f => f.dir = [destName])).map (fun f => f.name)

/-- State threaded through the move loop of `sort_files`: the live
filesystem plus the two counters the Python function returns. -/
structure SortResult where
  fs : List SFile
  moved : Nat
  skipped : Nat
deriving DecidableEq

/-- One iteration of the move loop: resolve a unique name against the
live destination folder, then move the file there (`shutil.move`).
Moves succeed in this model, so `skipped_count` never increments; the
`except` branch of the source only covers environmental move failures. -/
def sortStep (destName : String) (st : SortResult) (f : SFile) : SortResult :=
  let newName := get_unique_filename (destNames st.fs destName) f.name
  { fs := (st.fs.erase f) ++ [⟨[destName], newName⟩],
    moved := st.moved + 1,
    skipped := st.skipped }

/-- Model of `FileManager.sort_files(source_dir, selected_ext)`: collect
the matching files in walk order, then move each into the destination
folder.  Returns the final filesystem together with
`(moved_count, skipped_count)`. -/
def sort_files (fs : List SFile) (selectedExt : String) : SortResult :=
  (sortPlan fs selectedExt).foldl (sortStep (sortDestName selectedExt)) ⟨fs, 0, 0⟩

/- ## `FileManager.find_duplicates` -/

/-- A file yielded by a directory walk: its full path, its bare filename,
and the MD5 digest of its content (`none` when opening/reading the file
raises, i.e. the `except` branch runs). -/
structure FsFile where
  path : String
  name : String
  digest : Option Nat
deriving DecidableEq

/-- Python dict assignment `m[k] = v`: replaces the value of an existing
key in place, otherwise appends the new binding. -/
def dictInsert (m : List (Nat × String)) (k : Nat) (v : String) : List (Nat × String) :=
  if (m.lookup k).isSome then
    m.map (fun p => if p.1 = k then (k, v) else p)
  else
    m ++ [(k, v)]

/-- Phase 1 loop body of `find_duplicates`: index a readable reference
file (`reference_hashes[file_hash] = filename`), log a read error
otherwise. -/
def buildStep (st : List (Nat × String) × List String) (f : FsFile) :
    List (Nat × String) × List String :=
  match f.digest with
  | some h => (dictInsert st.1 h f.name, st.2)
  | none => (st.1, st.2 ++ ["Error reading file " ++ f.path])

/-- Phase 1 of `find_duplicates`: fold over the reference walk building
`reference_hashes` together with the read-error log lines. -/
def buildIndex (refFiles : List FsFile) : List (Nat × String) × List String :=
  refFiles.foldl buildStep ([], [])

/-- The result of `find_duplicates`: the triple the Python function
returns (`found_count`, `deleted_count`, `log_messages`) plus the
filesystem-facing observations — the check-tree paths for which a
`Duplicate found` line was logged, and the paths passed to `os.remove`. -/
structure DedupResult where
  foundCount : Nat
  deletedCount : Nat
  log : List String
  matchedPaths : List String
  removedPaths : List String
deriving DecidableEq

/-- Phase 2 loop body of `find_duplicates`, for one walked check file. -/
def dedupStep (idx : List (Nat × String)) (dryRun : Bool) (st : DedupResult) (f : FsFile) :
    DedupResult :=
  match f.digest with
  | none => { st with log := st.log ++ ["Error checking file " ++ f.path] }
  | some h =>
    match idx.lookup h with
    | none => st
    | some refName =>
      let st1 := { st with
        foundCount := st.foundCount + 1,
        log := st.log ++ ["Duplicate found: " ++ f.path ++ " matches " ++ refName],
        matchedPaths := st.matchedPaths ++ [f.path] }
      if dryRun then st1
      else { st1 with
        removedPaths := st1.removedPaths ++ [f.path],
        log := st1.log ++ ["Deleted: " ++ f.path],
        deletedCount := st1.deletedCount + 1 }

/-- Model of `FileManager.find_duplicates(reference_dir, check_dir,
dry_run)`: `refFiles` and `checkFiles` are the two directory walks in
walk order. -/
def find_duplicates (refFiles checkFiles : List FsFile) (dryRun : Bool) : DedupResult :=
  let built := buildIndex refFiles
  checkFiles.foldl (dedupStep built.1 dryRun)
    { foundCount := 0, deletedCount := 0,
      log := ["Starting duplicate scan...", "Indexing files in reference directory"]
        ++ built.2 ++ ["Indexing complete.", "Checking for exact file duplicates"],
      matchedPaths := [], removedPaths := [] }

/-- Whether a check file hits the reference index (the `if file_hash in
reference_hashes` test). -/
def isDup (idx : List (Nat × String)) (f : FsFile) : Bool :=
  match f.digest with
  | some h => (idx.lookup h).isSome
  | none => false

/-- Last-seen reference filename for a digest, starting from `acc`:
models the final value a Python dict slot holds after the phase-1 loop. -/
def lastRefNameFrom (acc : Option String) (refFiles : List FsFile) (h : Nat) : Option String :=
  refFiles.foldl
    (fun a f =>
      match f.digest with
      | some d => if d = h then some f.name else a
      | none => a)
    acc

/-- The name stored in the reference index for digest `h`: the name of
the last readable reference file with that digest. -/
def lastRefName (refFiles : List FsFile) (h : Nat) : Option String :=
  lastRefNameFrom none refFiles h

/- ## `FileManager.delete_empty_folders` -/

/-- Directory tree state for the pruner: the directory paths and file
paths present under `target_dir`, each as a component list relative to
`target_dir` (`[]` is `target_dir` itself). -/
structure PruneFS where
  dirs : List (List String)
  files : List (List String)
deriving DecidableEq

/-- Parent directory of a relative path (`none` for the root itself). -/
def parentOf (p : List String) : Option (List String) :=
  if p = [] then none else some p.dropLast

/-- `not os.listdir(dirpath)` evaluated against the live tree: `d` has no
file and no subdirectory entry. -/
def listdirIsEmpty (fs : PruneFS) (d : List String) : Bool :=
  !(fs.files.any (fun f => parentOf f == some d)
    || fs.dirs.any (fun c => parentOf c == some d))

/-- Result of `delete_empty_folders`: the final tree plus the pair the
Python function returns (`deleted_count`, `log_messages`). -/
structure PruneResult where
  fs : PruneFS
  deletedCount : Nat
  log : List String
deriving DecidableEq

/-- One visited directory of the `os.walk(target_dir, topdown=False)`
loop: the root `target_dir` (path `[]`) is skipped; an empty directory is
logged (dry run) or removed and logged (real run), and `deleted_count`
increments in both modes. -/
def pruneStep (dryRun : Bool) (st : PruneResult) (d : List String) : PruneResult :=
  if d = [] then st
  else if listdirIsEmpty st.fs d then
    if dryRun then
      { st with
        deletedCount := st.deletedCount + 1,
        log := st.log
          ++ ["Found empty folder (will not delete in dry run): " ++ String.intercalate "/" d] }
    else
      { fs := { dirs := st.fs.dirs.erase d, files := st.fs.files },
        deletedCount := st.deletedCount + 1,
        log := st.log ++ ["Deleted empty folder: " ++ String.intercalate "/" d] }
  else st

/-- Model of `FileManager.delete_empty_folders(target_dir, dry_run)`:
`walk` is the directory sequence yielded by
`os.walk(target_dir, topdown=False)` — bottom-up, children before their
ancestors, the root last.  Emptiness is re-checked against the live tree
at each visit (`os.listdir`). -/
def delete_empty_folders (fs : PruneFS) (walk : List (List String)) (dryRun : Bool) :
    PruneResult :=
  walk.foldl (pruneStep dryRun) ⟨fs, 0, ["Starting empty folder cleanup..."]⟩

/- ## `ImageProcessor.batch_process_images` -/

/-- A decoded raster image: dimensions plus the Pillow mode string. -/
structure PILImage where
  width : Nat
  height : Nat
  mode : String
deriving DecidableEq

/-- Python `int(x)` on a rational: truncation toward zero. -/
def pyInt (q : ℚ) : Int := q.num.tdiv q.den

/-- Lower-case a string character-wise (`str.lower()` for ASCII names). -/
def strToLower (s : String) : String := ⟨s.data.map Char.toLower⟩

/-- The literal `supported_formats` tuple of `batch_process_images`. -/
def supportedFormats : List String :=
  [".jpg", ".jpeg", ".png", ".bmp", ".gif", ".tiff", ".webp",
   ".psd", ".hdr", ".tga", ".xcf", ".miff", ".dcm", ".xpm", ".pcx",
   ".fits", ".ppm", ".pgm", ".pfm", ".mng", ".dds", ".otb", ".pdf",
   ".avif", ".heic", ".heif",
   ".cr2", ".rw2", ".nef", ".arw", ".sr2", ".orf", ".pef", ".raf", ".srw", ".mrw",
   ".dcr", ".dng", ".erf", ".3fr", ".ari", ".srf", ".bay", ".crw", ".cap", ".iiq",
   ".eip", ".dcs", ".drf", ".k25", ".kdc", ".fff", ".mef", ".mos", ".nrw", ".ptx",
   ".pxn", ".r3d", ".rwl", ".rwz", ".x3f", ".mdc"]

/-- `filename.lower().endswith(supported_formats)`. -/
def isSupportedName (name : String) : Bool :=
  supportedFormats.any (fun e => e.data.isSuffixOf (strToLower name).data)

/-- An entry of `os.listdir(source_dir)`: the filename and, when Pillow
can open and decode it, the decoded image (`none` = `Image.open`/decoding
raises and the per-file `except` branch runs). -/
structure BatchFile where
  filename : String
  image : Option PILImage
deriving DecidableEq

/-- The format-specific saving step of `batch_process_images`: for the
lossy target formats (`jpeg`, `webp`) an `RGBA` or palette (`P`) image
is converted to `RGB` before encoding. -/
def flattenForSave (outputFormat : String) (resized : PILImage) : PILImage :=
  if strToLower outputFormat = "jpeg" ∨ strToLower outputFormat = "webp" then
    if resized.mode = "RGBA" ∨ resized.mode = "P" then
      ⟨resized.width, resized.height, "RGB"⟩
    else resized
  else resized

/-- The per-image resize-and-save pipeline of `batch_process_images`:
`new_width = int(original_width * percentage)` (likewise height), resize
(mode preserved), then the format-specific saving step. -/
def processSave (percentage : ℚ) (outputFormat : String) (img : PILImage) : PILImage :=
  flattenForSave outputFormat
    ⟨(pyInt ((img.width : ℚ) * percentage)).toNat,
     (pyInt ((img.height : ℚ) * percentage)).toNat,
     img.mode⟩

/-- Observable outcome of one `batch_process_images` run:
`processedCount` is the integer the Python function returns; `saved` the
images written to `dest_dir` in processing order; `exceptCount` the
number of executions of the per-file `except` branch (which only prints
to stdout — failures are not part of the returned value). -/
structure BatchRun where
  processedCount : Nat
  saved : List PILImage
  exceptCount : Nat
deriving DecidableEq

/-- Loop body of `batch_process_images` for one accepted filename. -/
def batchStep (percentage : ℚ) (outputFormat : String) (st : BatchRun) (f : BatchFile) :
    BatchRun :=
  match f.image with
  | some img =>
    { st with
      processedCount := st.processedCount + 1,
      saved := st.saved ++ [processSave percentage outputFormat img] }
  | none => { st with exceptCount := st.exceptCount + 1 }

/-- Model of `ImageProcessor.batch_process_images(source_dir, dest_dir,
percentage, output_format, quality)`: `files` is `os.listdir(source_dir)`
in listing order; the extension filter selects `image_files`; `quality`
only affects encoding parameters, not any observable of this model. -/
def batch_process_images (files : List BatchFile) (percentage : ℚ)
    (outputFormat : String) (quality : Nat) : BatchRun :=
  (files.filter (fun f => isSupportedName f.filename)).foldl
    (batchStep percentage outputFormat) ⟨0, [], 0⟩

/- ## `ImageProcessor.extract_gif_frames` -/

/-- What `input_path` refers to on disk. -/
inductive PathKind
  | file
  | directory
  | missing
deriving DecidableEq

/-- A Python exception escaping `extract_gif_frames`. -/
inductive PyExn
  | valueError (msg : String)
  | fileNotFoundError (msg : String)
  | nameError (missingName : String)
deriving DecidableEq

/-- A multi-frame source file: `frames` is the number of `seek` calls
that succeed before `EOFError` ends the frame loop. -/
structure GifFile where
  path : String
  name : String
  frames : Nat
deriving DecidableEq

/-- Model of `ImageProcessor.extract_gif_frames(input_path,
output_base_directory, is_single_file)`.

Single-file mode validates the path then extracts every frame of the one
file (each converted to RGBA and saved as a PNG), returning the frame
count.  Directory mode validates that `input_path` is a directory and
then hits the collection loop `for root, _, files in
os.walk(input_directory)` at image_processor.py:279 — `input_directory`
is not defined anywhere in the function or module (the parameter is
named `input_path`), so the lookup raises `NameError` before any file is
searched or any frame extracted. -/
def extract_gif_frames (kind : PathKind) (nameEndsWithGif : Bool) (gif : GifFile)
    (isSingleFile : Bool) : Except PyExn Nat :=
  if isSingleFile then
    if ¬(kind = PathKind.file ∧ nameEndsWithGif = true) then
      Except.error (PyExn.valueError "Invalid single GIF file path")
    else
      Except.ok gif.frames
  else
    if kind ≠ PathKind.directory then
      Except.error (PyExn.fileNotFoundError "Input directory not found")
    else
      Except.error (PyExn.nameError "input_directory")

/-- Whether a check file's content digest occurs among the (readable)
reference files. -/
def digestMatchesRef (refFiles : List FsFile) (f : FsFile) : Prop :=
  ∃ h, f.digest = some h ∧ ∃ r ∈ refFiles, r.digest = some h

/- ## Lemmas and claim theorems -/

theorem decDigitsAux_irrel :
    ∀ (f₁ n f₂ : Nat), n < f₁ → n < f₂ → decDigitsAux f₁ n = decDigitsAux f₂ n := by
  intro f₁
  induction f₁ with
  | zero => intro n f₂ h₁ _; omega
  | succ f₁ ih =>
    intro n f₂ h₁ h₂
    cases f₂ with
    | zero => omega
    | succ f₂ =>
      simp only [decDigitsAux]
      by_cases h10 : n < 10
      · simp [h10]
      · simp only [h10, if_false]
        have hdiv : n / 10 < n := Nat.div_lt_self (by omega) (by omega)
        rw [ih (n / 10) f₂ (by omega) (by omega)]

theorem decDigits_eq (n : Nat) :
    decDigits n = if n < 10 then [decChar n] else decDigits (n / 10) ++ [decChar (n % 10)] := by
  by_cases h10 : n < 10
  · simp [decDigits, decDigitsAux, h10]
  · have hdiv : n / 10 < n := Nat.div_lt_self (by omega) (by omega)
    have h1 : decDigitsAux (n + 1) n = decDigitsAux n (n / 10) ++ [decChar (n % 10)] := by
      simp [decDigitsAux, h10]
    have h2 : decDigitsAux n (n / 10) = decDigitsAux (n / 10 + 1) (n / 10) :=
      decDigitsAux_irrel n (n / 10) (n / 10 + 1) hdiv (by omega)
    simp only [decDigits, h10, if_false]
    rw [h1, h2]

theorem decVal_decChar {d : Nat} (h : d < 10) : decVal (decChar d) = d := by
  interval_cases d <;> decide

theorem decodeDigits_append_singleton (l : List Char) (c : Char) :
    decodeDigits (l ++ [c]) = 10 * decodeDigits l + decVal c := by
  simp [decodeDigits, List.foldl_append]

theorem decodeDigits_decDigits (n : Nat) : decodeDigits (decDigits n) = n := by
  induction n using Nat.strong_induction_on with
  | _ n ih =>
    rw [decDigits_eq]
    by_cases h10 : n < 10
    · simp only [h10, if_true]
      show 10 * 0 + decVal (decChar n) = n
      rw [decVal_decChar h10]; omega
    · simp only [h10, if_false]
      rw [decodeDigits_append_singleton,
        ih (n / 10) (Nat.div_lt_self (by omega) (by omega)),
        decVal_decChar (Nat.mod_lt n (by omega))]
      omega

theorem decDigits_injective : Function.Injective decDigits := by
  intro a b h
  rw [← decodeDigits_decDigits a, ← decodeDigits_decDigits b, h]

theorem natStr_injective : Function.Injective natStr := by
  intro a b h
  exact decDigits_injective (congrArg String.data h)

theorem decDigits_ne_nil (n : Nat) : decDigits n ≠ [] := by
  rw [decDigits_eq]
  by_cases h10 : n < 10 <;> simp [h10]

theorem pySplitext_append (s : String) : (pySplitext s).1 ++ (pySplitext s).2 = s := by
  unfold pySplitext
  cases hidx : s.data.reverse.indexOf? '.' with
  | none => exact String.append_empty s
  | some ridx =>
    simp only
    by_cases hany : (s.data.take (s.data.length - 1 - ridx)).any (fun c => c != '.')
    · simp only [hany, if_true]
      show String.mk (s.data.take _ ++ s.data.drop _) = s
      rw [List.take_append_drop]
    · simp only [hany, if_false]
      exact String.append_empty s

theorem candidateName_succ_data (original base ext : String) (k : Nat) :
    (candidateName original base ext (k + 1)).data =
      base.data ++ '(' :: (decDigits (k + 1) ++ ')' :: ext.data) := by
  show (base ++ "(" ++ natStr (k + 1) ++ ")" ++ ext).data = _
  simp [String.data_append, natStr]

theorem candidateName_length_succ (original base ext : String) (k : Nat) :
    (candidateName original base ext (k + 1)).data.length =
      base.data.length + ext.data.length + (decDigits (k + 1)).length + 2 := by
  rw [candidateName_succ_data]
  simp
  omega

theorem candidateName_injective (original base ext : String)
    (hbe : base ++ ext = original) : Function.Injective (candidateName original base ext) := by
  intro a b h
  match a, b with
  | 0, 0 => rfl
  | 0, j + 1 =>
    exfalso
    have hlen := congrArg (fun s : String => s.data.length) h.symm
    simp only [] at hlen
    rw [candidateName_length_succ] at hlen
    have h0 : (candidateName original base ext 0).data.length
        = base.data.length + ext.data.length := by
      show original.data.length = _
      rw [← hbe]
      simp [String.data_append]
    rw [h0] at hlen
    have := decDigits_ne_nil (j + 1)
    have : 0 < (decDigits (j + 1)).length := List.length_pos.mpr this
    omega
  | i + 1, 0 =>
    exfalso
    have hlen := congrArg (fun s : String => s.data.length) h
    simp only [] at hlen
    rw [candidateName_length_succ] at hlen
    have h0 : (candidateName original base ext 0).data.length
        = base.data.length + ext.data.length := by
      show original.data.length = _
      rw [← hbe]
      simp [String.data_append]
    rw [h0] at hlen
    have := decDigits_ne_nil (i + 1)
    have : 0 < (decDigits (i + 1)).length := List.length_pos.mpr this
    omega
  | i + 1, j + 1 =>
    have hd := congrArg String.data h
    rw [candidateName_succ_data, candidateName_succ_data] at hd
    have h1 := List.append_cancel_left hd
    have h2 : decDigits (i + 1) ++ ')' :: ext.data = decDigits (j + 1) ++ ')' :: ext.data := by
      injection h1
    have h3 : decDigits (i + 1) = decDigits (j + 1) := List.append_cancel_right h2
    have := decDigits_injective h3
    omega

theorem exists_candidateName_notin (existing : List String) (original base ext : String)
    (hbe : base ++ ext = original) :
    ∃ j, j < existing.length + 1 ∧ candidateName original base ext j ∉ existing := by
  by_contra hcon
  push_neg at hcon
  have hinj := candidateName_injective original base ext hbe
  have hsub : (Finset.range (existing.length + 1)).image (candidateName original base ext)
      ⊆ existing.toFinset := by
    intro x hx
    rw [Finset.mem_image] at hx
    obtain ⟨j, hj, rfl⟩ := hx
    rw [List.mem_toFinset]
    exact hcon j (Finset.mem_range.mp hj)
  have hcard := Finset.card_le_card hsub
  rw [Finset.card_image_of_injective _ hinj, Finset.card_range] at hcard
  have := existing.toFinset_card_le
  omega

theorem findUniqueAux_spec (existing : List String) (original base ext : String) :
    ∀ (fuel k : Nat),
      (∃ j, j < fuel ∧ candidateName original base ext (k + j) ∉ existing) →
      ∃ j, candidateName original base ext (k + j) ∉ existing ∧
        (∀ i, i < j → candidateName original base ext (k + i) ∈ existing) ∧
        findUniqueAux existing original base ext fuel k = candidateName original base ext (k + j) := by
  intro fuel
  induction fuel with
  | zero => intro k h; obtain ⟨j, hj, _⟩ := h; omega
  | succ fuel ih =>
    intro k h
    by_cases hk : candidateName original base ext k ∈ existing
    · obtain ⟨j, hj, hnot⟩ := h
      have hj0 : j ≠ 0 := by
        intro h0; rw [h0] at hnot; simp at hnot; exact hnot hk
      have hshift : ∃ j', j' < fuel ∧ candidateName original base ext (k + 1 + j') ∉ existing := by
        refine ⟨j - 1, by omega, ?_⟩
        have : k + 1 + (j - 1) = k + j := by omega
        rw [this]; exact hnot
      obtain ⟨j', hnot', hmin', heq'⟩ := ih (k + 1) hshift
      refine ⟨j' + 1, ?_, ?_, ?_⟩
      · have : k + (j' + 1) = k + 1 + j' := by omega
        rw [this]; exact hnot'
      · intro i hi
        cases i with
        | zero => simpa using hk
        | succ i =>
          have : k + (i + 1) = k + 1 + i := by omega
          rw [this]; exact hmin' i (by omega)
      · show findUniqueAux existing original base ext (fuel + 1) k = _
        simp only [findUniqueAux, hk, if_true]
        rw [heq']
        congr 1
        omega
    · refine ⟨0, by simpa using hk, by omega, ?_⟩
      show findUniqueAux existing original base ext (fuel + 1) k = _
      simp only [findUniqueAux, hk, if_false]
      congr 1

theorem get_unique_filename_spec (existing : List String) (original : String) :
    ∃ j, candidateName original (pySplitext original).1 (pySplitext original).2 j ∉ existing ∧
      (∀ i, i < j →
        candidateName original (pySplitext original).1 (pySplitext original).2 i ∈ existing) ∧
      get_unique_filename existing original =
        candidateName original (pySplitext original).1 (pySplitext original).2 j := by
  obtain ⟨j, hj, hnot⟩ := exists_candidateName_notin existing original
    (pySplitext original).1 (pySplitext original).2 (pySplitext_append original)
  have h := findUniqueAux_spec existing original (pySplitext original).1 (pySplitext original).2
    (existing.length + 1) 0 ⟨j, hj, by simpa using hnot⟩
  obtain ⟨j', h1, h2, h3⟩ := h
  rw [Nat.zero_add] at h1 h3
  simp only [Nat.zero_add] at h2
  exact ⟨j', h1, h2, h3⟩

theorem get_unique_filename_not_mem (existing : List String) (original : String) :
    get_unique_filename existing original ∉ existing := by
  obtain ⟨j, h1, _, h3⟩ := get_unique_filename_spec existing original
  rw [h3]; exact h1

theorem sortStep_nodup (destName : String) (st : SortResult) (f : SFile)
    (h : st.fs.Nodup) : (sortStep destName st f).fs.Nodup := by
  have herase : (st.fs.erase f).Nodup := h.erase f
  have hnotin : (⟨[destName], get_unique_filename (destNames st.fs destName) f.name⟩ : SFile)
      ∉ st.fs.erase f := by
    intro hmem
    have hmem' : (⟨[destName], get_unique_filename (destNames st.fs destName) f.name⟩ : SFile)
        ∈ st.fs := (st.fs.erase_sublist f).mem hmem
    have : get_unique_filename (destNames st.fs destName) f.name ∈ destNames st.fs destName := by
      unfold destNames
      rw [List.mem_map]
      refine ⟨⟨[destName], get_unique_filename (destNames st.fs destName) f.name⟩, ?_, rfl⟩
      rw [List.mem_filter]
      exact ⟨hmem', by simp⟩
    exact get_unique_filename_not_mem _ _ this
  show ((st.fs.erase f) ++ [_]).Nodup
  rw [List.nodup_append]
  refine ⟨herase, List.nodup_singleton _, ?_⟩
  intro a ha hb
  rw [List.mem_singleton] at hb
  rw [hb] at ha
  exact hnotin ha

theorem sortFold_invariant (destName : String) (cond : SFile → Bool) :
    ∀ (plan : List SFile) (st : SortResult), st.fs.Nodup →
      (∀ g ∈ st.fs, g.dir = [destName] ∨ cond g = false ∨ g ∈ plan) →
      ∀ g ∈ (plan.foldl (sortStep destName) st).fs, g.dir = [destName] ∨ cond g = false := by
  intro plan
  induction plan with
  | nil =>
    intro st _ hinv g hg
    rcases hinv g hg with h | h | h
    · exact Or.inl h
    · exact Or.inr h
    · exact absurd h (List.not_mem_nil g)
  | cons f rest ih =>
    intro st hnodup hinv
    rw [List.foldl_cons]
    apply ih (sortStep destName st f) (sortStep_nodup destName st f hnodup)
    intro g hg
    show g.dir = [destName] ∨ cond g = false ∨ g ∈ rest
    rcases List.mem_append.mp hg with hgl | hgr
    · have hgmem : g ∈ st.fs ∧ g ≠ f := by
        have := (hnodup.mem_erase_iff).mp hgl
        exact ⟨this.2, this.1⟩
      rcases hinv g hgmem.1 with h | h | h
      · exact Or.inl h
      · exact Or.inr (Or.inl h)
      · rcases List.mem_cons.mp h with heq | hrest
        · exact absurd heq hgmem.2
        · exact Or.inr (Or.inr hrest)
    · rw [List.mem_singleton] at hgr
      rw [hgr]
      exact Or.inl rfl

theorem sort_files_result_settled (fs : List SFile) (selectedExt : String)
    (hnodup : fs.Nodup) :
    ∀ g ∈ (sort_files fs selectedExt).fs,
      g.dir = [sortDestName selectedExt] ∨ sortSelects selectedExt g = false := by
  apply sortFold_invariant (sortDestName selectedExt) (sortSelects selectedExt)
    (sortPlan fs selectedExt) ⟨fs, 0, 0⟩ hnodup
  intro g hg
  by_cases hc : sortSelects selectedExt g = true
  · exact Or.inr (Or.inr (List.mem_filter.mpr ⟨hg, hc⟩))
  · exact Or.inr (Or.inl (Bool.not_eq_true _ ▸ (eq_false_of_ne_true hc)))

theorem sortPlan_settled_nil (fs : List SFile) (selectedExt : String)
    (h : ∀ g ∈ fs, g.dir = [sortDestName selectedExt] ∨ sortSelects selectedExt g = false) :
    sortPlan fs selectedExt = [] := by
  rw [sortPlan, List.filter_eq_nil_iff]
  intro g hg
  rcases h g hg with hdir | hfalse
  · intro hsel
    unfold sortSelects at hsel
    rw [Bool.and_eq_true] at hsel
    have := of_decide_eq_true hsel.1
    exact this hdir
  · rw [hfalse]; exact Bool.false_ne_true

/-- C7: sorting is idempotent — after one run of `sort_files` every
matching file sits directly in the destination subfolder, which the scan
excludes, so a second run finds an empty plan, moves zero files and
leaves the filesystem unchanged; moreover no file selected for moving
ever has the destination folder as its own location, so the Sorter never
moves a file into itself. -/
theorem C7_sort_idempotent (fs : List SFile) (selectedExt : String) (hnodup : fs.Nodup) :
    sort_files (sort_files fs selectedExt).fs selectedExt
      = ⟨(sort_files fs selectedExt).fs, 0, 0⟩
    ∧ sortPlan (sort_files fs selectedExt).fs selectedExt = []
    ∧ ∀ f ∈ sortPlan fs selectedExt,
        ∀ newName, f ≠ ⟨[sortDestName selectedExt], newName⟩ := by
  have hsettle := sort_files_result_settled fs selectedExt hnodup
  have hnil := sortPlan_settled_nil _ _ hsettle
  refine ⟨?_, hnil, ?_⟩
  · show (sortPlan (sort_files fs selectedExt).fs selectedExt).foldl _ _ = _
    rw [hnil]
    rfl
  · intro f hf newName heq
    have hsel : sortSelects selectedExt f = true := (List.mem_filter.mp hf).2
    unfold sortSelects at hsel
    rw [Bool.and_eq_true] at hsel
    have hdir : f.dir ≠ [sortDestName selectedExt] := of_decide_eq_true hsel.1
    apply hdir
    rw [heq]

/-- Witness for C7 at a concrete two-file tree. -/
theorem C7_sort_idempotent_witness :
    ([⟨[], "a.jpg"⟩, ⟨["sub"], "b.jpg"⟩] : List SFile).Nodup
    ∧ (sort_files (sort_files [⟨[], "a.jpg"⟩, ⟨["sub"], "b.jpg"⟩] "jpg").fs "jpg"
        = ⟨(sort_files [⟨[], "a.jpg"⟩, ⟨["sub"], "b.jpg"⟩] "jpg").fs, 0, 0⟩
      ∧ sortPlan (sort_files [⟨[], "a.jpg"⟩, ⟨["sub"], "b.jpg"⟩] "jpg").fs "jpg" = []
      ∧ ∀ f ∈ sortPlan [⟨[], "a.jpg"⟩, ⟨["sub"], "b.jpg"⟩] "jpg",
          ∀ newName, f ≠ ⟨[sortDestName "jpg"], newName⟩) :=
  ⟨by decide, C7_sort_idempotent [⟨[], "a.jpg"⟩, ⟨["sub"], "b.jpg"⟩] "jpg" (by decide)⟩

/-- C6: the Unique-Name Resolver returns the candidate unchanged when no
entry of that name exists; otherwise it returns `stem(k)ext` for the
smallest `k ≥ 1` whose name does not exist; and the returned name never
collides with a name existing at the time of choice. -/
theorem C6_unique_name_resolver (existing : List String) (original : String) :
    (original ∉ existing → get_unique_filename existing original = original)
    ∧ get_unique_filename existing original ∉ existing
    ∧ (original ∈ existing →
        ∃ k, 1 ≤ k
          ∧ get_unique_filename existing original
              = (pySplitext original).1 ++ "(" ++ natStr k ++ ")" ++ (pySplitext original).2
          ∧ (pySplitext original).1 ++ "(" ++ natStr k ++ ")" ++ (pySplitext original).2
              ∉ existing
          ∧ ∀ j, 1 ≤ j → j < k →
              (pySplitext original).1 ++ "(" ++ natStr j ++ ")" ++ (pySplitext original).2
                ∈ existing) := by
  obtain ⟨j, hnot, hmin, heq⟩ := get_unique_filename_spec existing original
  refine ⟨?_, ?_, ?_⟩
  · intro h0
    cases j with
    | zero => exact heq
    | succ j' =>
      exfalso
      have := hmin 0 (by omega)
      exact h0 this
  · rw [heq]; exact hnot
  · intro h0
    cases j with
    | zero => exact absurd h0 hnot
    | succ j' =>
      refine ⟨j' + 1, by omega, heq, hnot, ?_⟩
      intro i h1 h2
      have := hmin i h2
      cases i with
      | zero => omega
      | succ i' => exact this

/-- Witness for C6 at the concrete directory of the spec example. -/
theorem C6_unique_name_resolver_witness :
    ("photo.png" ∈ (["photo.png"] : List String))
    ∧ (∃ k, 1 ≤ k
        ∧ get_unique_filename ["photo.png"] "photo.png"
            = (pySplitext "photo.png").1 ++ "(" ++ natStr k ++ ")" ++ (pySplitext "photo.png").2
        ∧ (pySplitext "photo.png").1 ++ "(" ++ natStr k ++ ")" ++ (pySplitext "photo.png").2
            ∉ (["photo.png"] : List String)
        ∧ ∀ j, 1 ≤ j → j < k →
            (pySplitext "photo.png").1 ++ "(" ++ natStr j ++ ")" ++ (pySplitext "photo.png").2
              ∈ (["photo.png"] : List String)) :=
  ⟨by decide, (C6_unique_name_resolver ["photo.png"] "photo.png").2.2 (by decide)⟩

theorem lookup_cons_eq (a : Nat) (b : String) (l : List (Nat × String)) (k : Nat) :
    ((a, b) :: l).lookup k = if k = a then some b else l.lookup k := by
  rw [List.lookup_cons]
  by_cases h : k = a
  · have hb : (k == a) = true := beq_iff_eq.mpr h
    rw [hb, if_pos h]
  · have hb : (k == a) = false := beq_eq_false_iff_ne.mpr h
    rw [hb, if_neg h]

theorem lookup_map_replace_self (k : Nat) (v : String) :
    ∀ m : List (Nat × String), (m.lookup k).isSome = true →
      (m.map (fun p => if p.1 = k then (k, v) else p)).lookup k = some v := by
  intro m
  induction m with
  | nil => intro h; simp [List.lookup] at h
  | cons p rest ih =>
    intro hs
    rcases p with ⟨a, b⟩
    rw [lookup_cons_eq] at hs
    by_cases hak : a = k
    · subst hak
      have hhead : (if (a, b).1 = a then (a, v) else (a, b)) = (a, v) := by
        simp
      rw [List.map_cons, hhead, lookup_cons_eq, if_pos rfl]
    · have hka : ¬ k = a := fun hh => hak hh.symm
      have hhead : (if (a, b).1 = k then (k, v) else (a, b)) = (a, b) := by
        simp [hak]
      rw [List.map_cons, hhead, lookup_cons_eq, if_neg hka]
      rw [if_neg hka] at hs
      exact ih hs

theorem lookup_map_replace_ne (k : Nat) (v : String) {k' : Nat} (h : k' ≠ k) :
    ∀ m : List (Nat × String),
      (m.map (fun p => if p.1 = k then (k, v) else p)).lookup k' = m.lookup k' := by
  intro m
  induction m with
  | nil => rfl
  | cons p rest ih =>
    rcases p with ⟨a, b⟩
    by_cases hak : a = k
    · subst hak
      have hhead : (if (a, b).1 = a then (a, v) else (a, b)) = (a, v) := by
        simp
      rw [List.map_cons, hhead, lookup_cons_eq, lookup_cons_eq, if_neg h, if_neg h]
      exact ih
    · have hhead : (if (a, b).1 = k then (k, v) else (a, b)) = (a, b) := by
        simp [hak]
      rw [List.map_cons, hhead, lookup_cons_eq, lookup_cons_eq]
      by_cases hk'a : k' = a
      · rw [if_pos hk'a, if_pos hk'a]
      · rw [if_neg hk'a, if_neg hk'a]
        exact ih

theorem lookup_append_single_self (k : Nat) (v : String) :
    ∀ m : List (Nat × String), (m.lookup k).isSome = false →
      (m ++ [(k, v)]).lookup k = some v := by
  intro m
  induction m with
  | nil => intro _; rw [List.nil_append, lookup_cons_eq, if_pos rfl]
  | cons p rest ih =>
    intro hs
    rcases p with ⟨a, b⟩
    rw [List.cons_append, lookup_cons_eq]
    rw [lookup_cons_eq] at hs
    by_cases hka : k = a
    · rw [if_pos hka] at hs; simp at hs
    · rw [if_neg hka] at hs ⊢
      exact ih hs

theorem lookup_append_single_ne (k : Nat) (v : String) {k' : Nat} (h : k' ≠ k) :
    ∀ m : List (Nat × String), (m ++ [(k, v)]).lookup k' = m.lookup k' := by
  intro m
  induction m with
  | nil => rw [List.nil_append, lookup_cons_eq, if_neg h]
  | cons p rest ih =>
    rcases p with ⟨a, b⟩
    rw [List.cons_append, lookup_cons_eq, lookup_cons_eq]
    by_cases hk'a : k' = a
    · rw [if_pos hk'a, if_pos hk'a]
    · rw [if_neg hk'a, if_neg hk'a]
      exact ih

theorem dictInsert_lookup_self (m : List (Nat × String)) (k : Nat) (v : String) :
    (dictInsert m k v).lookup k = some v := by
  unfold dictInsert
  by_cases hs : (m.lookup k).isSome = true
  · rw [if_pos hs]
    exact lookup_map_replace_self k v m hs
  · rw [if_neg hs]
    have hs' : (m.lookup k).isSome = false := by
      cases hb : (m.lookup k).isSome
      · rfl
      · exact absurd hb hs
    exact lookup_append_single_self k v m hs'

theorem dictInsert_lookup_ne (m : List (Nat × String)) (k : Nat) (v : String)
    {k' : Nat} (h : k' ≠ k) :
    (dictInsert m k v).lookup k' = m.lookup k' := by
  unfold dictInsert
  by_cases hs : (m.lookup k).isSome = true
  · rw [if_pos hs]
    exact lookup_map_replace_ne k v h m
  · rw [if_neg hs]
    exact lookup_append_single_ne k v h m

theorem lastRefNameFrom_cons (acc : Option String) (f : FsFile) (rest : List FsFile) (h : Nat) :
    lastRefNameFrom acc (f :: rest) h
      = lastRefNameFrom
          (match f.digest with
           | some d => if d = h then some f.name else acc
           | none => acc) rest h := rfl

theorem buildIndex_fold_lookup (h : Nat) :
    ∀ (files : List FsFile) (st : List (Nat × String) × List String),
      ((files.foldl buildStep st).1).lookup h = lastRefNameFrom (st.1.lookup h) files h := by
  intro files
  induction files with
  | nil => intro st; rfl
  | cons f rest ih =>
    intro st
    rw [List.foldl_cons, ih (buildStep st f), lastRefNameFrom_cons]
    have hacc : (buildStep st f).1.lookup h =
        (match f.digest with
         | some d => if d = h then some f.name else st.1.lookup h
         | none => st.1.lookup h) := by
      rcases hd : f.digest with _ | d
      · simp only [buildStep, hd]
      · simp only [buildStep, hd]
        by_cases hdh : d = h
        · subst hdh
          rw [if_pos rfl]
          exact dictInsert_lookup_self st.1 d f.name
        · rw [if_neg hdh]
          exact dictInsert_lookup_ne st.1 d f.name (fun hh => hdh hh.symm)
    rw [hacc]

theorem buildIndex_lookup (refFiles : List FsFile) (h : Nat) :
    (buildIndex refFiles).1.lookup h = lastRefName refFiles h :=
  buildIndex_fold_lookup h refFiles ([], [])

theorem lastRefNameFrom_isSome (h : Nat) :
    ∀ (files : List FsFile) (acc : Option String),
      (lastRefNameFrom acc files h).isSome
        = (acc.isSome || files.any (fun f => f.digest == some h)) := by
  intro files
  induction files with
  | nil => intro acc; simp [lastRefNameFrom]
  | cons f rest ih =>
    intro acc
    rw [lastRefNameFrom_cons]
    rcases hd : f.digest with _ | d
    · rw [ih, List.any_cons]
      simp [hd]
    · by_cases hdh : d = h
      · subst hdh
        rw [ih, List.any_cons]
        simp [hd]
      · rw [ih, List.any_cons]
        have hb : (d == h) = false := beq_eq_false_iff_ne.mpr hdh
        simp [hd, hb, hdh]

theorem buildIndex_isSome_iff (refFiles : List FsFile) (h : Nat) :
    ((buildIndex refFiles).1.lookup h).isSome = true
      ↔ ∃ r ∈ refFiles, r.digest = some h := by
  rw [buildIndex_lookup, lastRefName, lastRefNameFrom_isSome]
  simp [List.any_eq_true]

theorem buildIndex_log_length :
    ∀ (files : List FsFile) (st : List (Nat × String) × List String),
      ((files.foldl buildStep st).2).length
        = st.2.length + (files.filter (fun f => f.digest.isNone)).length := by
  intro files
  induction files with
  | nil => intro st; simp
  | cons f rest ih =>
    intro st
    rw [List.foldl_cons, ih (buildStep st f)]
    rcases hd : f.digest with _ | d
    · have h1 : (buildStep st f).2 = st.2 ++ ["Error reading file " ++ f.path] := by
        unfold buildStep; rw [hd]
      have h2 : (f :: rest).filter (fun f => f.digest.isNone)
          = f :: rest.filter (fun f => f.digest.isNone) := by
        rw [List.filter_cons]
        simp [hd]
      rw [h1, h2]
      simp
      omega
    · have h1 : (buildStep st f).2 = st.2 := by
        unfold buildStep; rw [hd]
      have h2 : (f :: rest).filter (fun f => f.digest.isNone)
          = rest.filter (fun f => f.digest.isNone) := by
        rw [List.filter_cons]
        simp [hd]
      rw [h1, h2]

theorem dedup_fold_char (idx : List (Nat × String)) (dryRun : Bool) :
    ∀ (checkFiles : List FsFile) (st : DedupResult),
      (checkFiles.foldl (dedupStep idx dryRun) st).foundCount
          = st.foundCount + (checkFiles.filter (isDup idx)).length
      ∧ (checkFiles.foldl (dedupStep idx dryRun) st).matchedPaths
          = st.matchedPaths ++ (checkFiles.filter (isDup idx)).map (fun f => f.path)
      ∧ (checkFiles.foldl (dedupStep idx dryRun) st).removedPaths
          = st.removedPaths
            ++ (if dryRun then [] else (checkFiles.filter (isDup idx)).map (fun f => f.path))
      ∧ (checkFiles.foldl (dedupStep idx dryRun) st).deletedCount
          = st.deletedCount
            + (if dryRun then 0 else (checkFiles.filter (isDup idx)).length) := by
  intro checkFiles
  induction checkFiles with
  | nil =>
    intro st
    refine ⟨by simp, by simp, by simp, by simp⟩
  | cons f rest ih =>
    intro st
    obtain ⟨ih1, ih2, ih3, ih4⟩ := ih (dedupStep idx dryRun st f)
    rcases hd : f.digest with _ | h
    · have hstep : dedupStep idx dryRun st f
          = { st with log := st.log ++ ["Error checking file " ++ f.path] } := by
        simp [dedupStep, hd]
      have hfil : (f :: rest).filter (isDup idx) = rest.filter (isDup idx) := by
        rw [List.filter_cons]
        simp [isDup, hd]
      refine ⟨?_, ?_, ?_, ?_⟩
      · rw [List.foldl_cons, ih1, hstep, hfil]
      · rw [List.foldl_cons, ih2, hstep, hfil]
      · rw [List.foldl_cons, ih3, hstep, hfil]
      · rw [List.foldl_cons, ih4, hstep, hfil]
    · rcases hl : idx.lookup h with _ | refName
      · have hstep : dedupStep idx dryRun st f = st := by
          simp [dedupStep, hd, hl]
        have hfil : (f :: rest).filter (isDup idx) = rest.filter (isDup idx) := by
          rw [List.filter_cons]
          simp [isDup, hd, hl]
        refine ⟨?_, ?_, ?_, ?_⟩
        · rw [List.foldl_cons, ih1, hstep, hfil]
        · rw [List.foldl_cons, ih2, hstep, hfil]
        · rw [List.foldl_cons, ih3, hstep, hfil]
        · rw [List.foldl_cons, ih4, hstep, hfil]
      · have hfil : (f :: rest).filter (isDup idx) = f :: rest.filter (isDup idx) := by
          rw [List.filter_cons]
          simp [isDup, hd, hl]
        cases dryRun with
        | true =>
          have hstep : dedupStep idx true st f
              = { st with
                  foundCount := st.foundCount + 1,
                  log := st.log
                    ++ ["Duplicate found: " ++ f.path ++ " matches " ++ refName],
                  matchedPaths := st.matchedPaths ++ [f.path] } := by
            simp [dedupStep, hd, hl]
          refine ⟨?_, ?_, ?_, ?_⟩
          · rw [List.foldl_cons, ih1, hstep, hfil]
            simp
            omega
          · rw [List.foldl_cons, ih2, hstep, hfil]
            simp
          · rw [List.foldl_cons, ih3, hstep, hfil]
            simp
          · rw [List.foldl_cons, ih4, hstep, hfil]
            simp
        | false =>
          have hstep : dedupStep idx false st f
              = { st with
                  foundCount := st.foundCount + 1,
                  log := (st.log
                    ++ ["Duplicate found: " ++ f.path ++ " matches " ++ refName])
                    ++ ["Deleted: " ++ f.path],
                  matchedPaths := st.matchedPaths ++ [f.path],
                  removedPaths := st.removedPaths ++ [f.path],
                  deletedCount := st.deletedCount + 1 } := by
            simp [dedupStep, hd, hl]
          refine ⟨?_, ?_, ?_, ?_⟩
          · rw [List.foldl_cons, ih1, hstep, hfil]
            simp
            omega
          · rw [List.foldl_cons, ih2, hstep, hfil]
            simp
          · rw [List.foldl_cons, ih3, hstep, hfil]
            simp
          · rw [List.foldl_cons, ih4, hstep, hfil]
            simp
            omega

theorem find_duplicates_char (refFiles checkFiles : List FsFile) (dryRun : Bool) :
    (find_duplicates refFiles checkFiles dryRun).foundCount
        = (checkFiles.filter (isDup (buildIndex refFiles).1)).length
    ∧ (find_duplicates refFiles checkFiles dryRun).matchedPaths
        = (checkFiles.filter (isDup (buildIndex refFiles).1)).map (fun f => f.path)
    ∧ (find_duplicates refFiles checkFiles dryRun).removedPaths
        = (if dryRun then []
           else (checkFiles.filter (isDup (buildIndex refFiles).1)).map (fun f => f.path))
    ∧ (find_duplicates refFiles checkFiles dryRun).deletedCount
        = (if dryRun then 0
           else (checkFiles.filter (isDup (buildIndex refFiles).1)).length) := by
  obtain ⟨h1, h2, h3, h4⟩ := dedup_fold_char (buildIndex refFiles).1 dryRun checkFiles
    { foundCount := 0, deletedCount := 0,
      log := ["Starting duplicate scan...", "Indexing files in reference directory"]
        ++ (buildIndex refFiles).2
        ++ ["Indexing complete.", "Checking for exact file duplicates"],
      matchedPaths := [], removedPaths := [] }
  exact ⟨by simpa [find_duplicates] using h1, by simpa [find_duplicates] using h2,
    by simpa [find_duplicates] using h3, by simpa [find_duplicates] using h4⟩

theorem isDup_iff_digestMatchesRef (refFiles : List FsFile) (f : FsFile) :
    isDup (buildIndex refFiles).1 f = true ↔ digestMatchesRef refFiles f := by
  unfold digestMatchesRef
  rcases hd : f.digest with _ | h
  · simp [isDup, hd]
  · have hstep : isDup (buildIndex refFiles).1 f
        = ((buildIndex refFiles).1.lookup h).isSome := by
      simp [isDup, hd]
    rw [hstep, buildIndex_isSome_iff]
    simp [hd]

theorem prune_dry_run_fold :
    ∀ (walk : List (List String)) (st : PruneResult),
      (walk.foldl (pruneStep true) st).fs = st.fs
      ∧ (walk.foldl (pruneStep true) st).deletedCount
          = st.deletedCount
            + (walk.filter (fun d => decide (d ≠ []) && listdirIsEmpty st.fs d)).length := by
  intro walk
  induction walk with
  | nil => intro st; exact ⟨rfl, by simp⟩
  | cons d rest ih =>
    intro st
    have hfs : (pruneStep true st d).fs = st.fs := by
      unfold pruneStep
      split_ifs with h1 h2 h3
      · rfl
      · rfl
      · exact absurd rfl h3
      · rfl
    obtain ⟨ihf, ihc⟩ := ih (pruneStep true st d)
    rw [List.foldl_cons]
    constructor
    · rw [ihf, hfs]
    · rw [ihc, hfs, List.filter_cons]
      by_cases hd0 : d = []
      · have hc : (decide (d ≠ []) && listdirIsEmpty st.fs d) = false := by
          simp [hd0]
        have hstep : pruneStep true st d = st := by
          simp [pruneStep, hd0]
        rw [hc, hstep]
        simp
      · by_cases hemp : listdirIsEmpty st.fs d
        · have hc : (decide (d ≠ []) && listdirIsEmpty st.fs d) = true := by
            simp [hd0, hemp]
          have hstep : (pruneStep true st d).deletedCount = st.deletedCount + 1 := by
            simp [pruneStep, hd0, hemp]
          rw [hc, hstep]
          simp
          omega
        · have hc : (decide (d ≠ []) && listdirIsEmpty st.fs d) = false := by
            simp [hd0, hemp]
          have hstep : (pruneStep true st d).deletedCount = st.deletedCount := by
            simp [pruneStep, hd0, hemp]
          rw [hc, hstep]
          simp

theorem prune_root_preserved (dryRun : Bool) :
    ∀ (walk : List (List String)) (st : PruneResult), [] ∈ st.fs.dirs →
      [] ∈ (walk.foldl (pruneStep dryRun) st).fs.dirs := by
  intro walk
  induction walk with
  | nil => intro st h; exact h
  | cons d rest ih =>
    intro st h
    rw [List.foldl_cons]
    apply ih
    by_cases hd0 : d = []
    · simpa [pruneStep, hd0] using h
    · unfold pruneStep
      rw [if_neg hd0]
      by_cases hemp : listdirIsEmpty st.fs d
      · rw [if_pos hemp]
        cases dryRun with
        | true => simpa using h
        | false =>
          show [] ∈ (st.fs.dirs.erase d)
          exact (List.mem_erase_of_ne (fun hh => hd0 hh.symm)).mpr h
      · rw [if_neg hemp]
        exact h

theorem batch_fold_counts (percentage : ℚ) (outputFormat : String) :
    ∀ (files : List BatchFile) (st : BatchRun),
      (files.foldl (batchStep percentage outputFormat) st).processedCount
          = st.processedCount + (files.filter (fun f => f.image.isSome)).length
      ∧ (files.foldl (batchStep percentage outputFormat) st).exceptCount
          = st.exceptCount + (files.filter (fun f => f.image.isNone)).length := by
  intro files
  induction files with
  | nil => intro st; simp
  | cons f rest ih =>
    intro st
    obtain ⟨ih1, ih2⟩ := ih (batchStep percentage outputFormat st f)
    rw [List.foldl_cons]
    rcases hi : f.image with _ | img
    · have hstep : batchStep percentage outputFormat st f
          = { st with exceptCount := st.exceptCount + 1 } := by
        simp [batchStep, hi]
      refine ⟨?_, ?_⟩
      · rw [ih1, hstep, List.filter_cons]
        simp [hi]
      · rw [ih2, hstep, List.filter_cons]
        simp [hi]
        omega
    · have hstep : batchStep percentage outputFormat st f
          = { st with
              processedCount := st.processedCount + 1,
              saved := st.saved ++ [processSave percentage outputFormat img] } := by
        simp [batchStep, hi]
      refine ⟨?_, ?_⟩
      · rw [ih1, hstep, List.filter_cons]
        simp [hi]
        omega
      · rw [ih2, hstep, List.filter_cons]
        simp [hi]

theorem sort_fold_counts (destName : String) :
    ∀ (plan : List SFile) (st : SortResult),
      (plan.foldl (sortStep destName) st).moved = st.moved + plan.length
      ∧ (plan.foldl (sortStep destName) st).skipped = st.skipped := by
  intro plan
  induction plan with
  | nil => intro st; simp
  | cons f rest ih =>
    intro st
    obtain ⟨ih1, ih2⟩ := ih (sortStep destName st f)
    rw [List.foldl_cons]
    refine ⟨?_, ?_⟩
    · rw [ih1]
      show st.moved + 1 + rest.length = st.moved + (rest.length + 1)
      omega
    · rw [ih2]
      rfl

theorem pyInt_eq_floor {q : ℚ} (hq : 0 ≤ q) : pyInt q = ⌊q⌋ := by
  rw [Rat.floor_def]
  exact Int.tdiv_eq_ediv (Rat.num_nonneg.mpr hq) (Int.ofNat_nonneg q.den)

/-- C1 counterexample: one empty subfolder `E`, dry run — the pruner
leaves the tree untouched but returns `deleted_count = 1`, not 0
(the counter increments for every empty folder found, also in dry-run
mode). -/
theorem C1_dry_run_counterexample :
    (delete_empty_folders ⟨[[], ["E"]], []⟩ [["E"], []] true).deletedCount = 1
    ∧ (1 : Nat) ≠ 0 := by
  refine ⟨by decide, by decide⟩

/-- C1 (amended): with `dryRun = true` both delete-capable operations
leave the filesystem untouched; `find_duplicates` returns
`deleted_count = 0` while `found_count` equals that of a real run; but
`delete_empty_folders` returns as its count the number of empty folders
found during the dry pass (each with a log line), not zero. -/
theorem C1_dry_run_amended :
    (∀ refFiles checkFiles : List FsFile,
      (find_duplicates refFiles checkFiles true).removedPaths = []
      ∧ (find_duplicates refFiles checkFiles true).deletedCount = 0
      ∧ (find_duplicates refFiles checkFiles true).foundCount
          = (find_duplicates refFiles checkFiles false).foundCount)
    ∧ (∀ (fs : PruneFS) (walk : List (List String)),
        (delete_empty_folders fs walk true).fs = fs
        ∧ (delete_empty_folders fs walk true).deletedCount
            = (walk.filter (fun d => decide (d ≠ []) && listdirIsEmpty fs d)).length) := by
  constructor
  · intro refs checks
    obtain ⟨hf1, _, hr1, hd1⟩ := find_duplicates_char refs checks true
    obtain ⟨hf2, _, _, _⟩ := find_duplicates_char refs checks false
    refine ⟨by simpa using hr1, by simpa using hd1, by rw [hf1, hf2]⟩
  · intro fs walk
    obtain ⟨h1, h2⟩ := prune_dry_run_fold walk ⟨fs, 0, ["Starting empty folder cleanup..."]⟩
    exact ⟨h1, by simpa using h2⟩

/-- C2 counterexample: two readable reference files with the same digest
and names `a` then `b` — the index stores the later name `b`, so
first-seen does not win. -/
theorem C2_first_seen_counterexample :
    (buildIndex [⟨"ref/sub/a", "a", some 5⟩, ⟨"ref/b", "b", some 5⟩]).1.lookup 5 = some "b"
    ∧ some ("b" : String) ≠ some ("a" : String) := by
  refine ⟨by decide, by decide⟩

/-- C2 (amended): on a digest collision within the reference set the
LAST-seen reference filename wins (each later file overwrites the dict
slot), and the collision is not reported as an error — error log lines
correspond exactly to unreadable reference files. -/
theorem C2_last_seen_amended (refFiles : List FsFile) (h : Nat) :
    (buildIndex refFiles).1.lookup h = lastRefName refFiles h
    ∧ (buildIndex refFiles).2.length
        = (refFiles.filter (fun f => f.digest.isNone)).length :=
  ⟨buildIndex_lookup refFiles h,
   by simpa [buildIndex] using buildIndex_log_length refFiles ([], [])⟩

/-- C5: a check-tree file is reported as a duplicate exactly when its
content digest occurs among the readable reference files — filenames
play no role — and a check file whose content matches no reference file
is never reported and never deleted. -/
theorem C5_digest_only_match (refFiles checkFiles : List FsFile) (dryRun : Bool) :
    (∀ f : FsFile, isDup (buildIndex refFiles).1 f = true ↔ digestMatchesRef refFiles f)
    ∧ (find_duplicates refFiles checkFiles dryRun).matchedPaths
        = (checkFiles.filter (isDup (buildIndex refFiles).1)).map (fun f => f.path)
    ∧ ((checkFiles.map (fun f => f.path)).Nodup →
        ∀ f ∈ checkFiles, ¬ digestMatchesRef refFiles f →
          f.path ∉ (find_duplicates refFiles checkFiles dryRun).matchedPaths
          ∧ f.path ∉ (find_duplicates refFiles checkFiles dryRun).removedPaths) := by
  obtain ⟨hf, hm, hr, hd⟩ := find_duplicates_char refFiles checkFiles dryRun
  refine ⟨isDup_iff_digestMatchesRef refFiles, hm, ?_⟩
  intro hnodup f hf_mem hnomatch
  have hnotdup : isDup (buildIndex refFiles).1 f = false := by
    cases hb : isDup (buildIndex refFiles).1 f
    · rfl
    · exact absurd ((isDup_iff_digestMatchesRef refFiles f).mp hb) hnomatch
  have hmain :
      f.path ∉ (checkFiles.filter (isDup (buildIndex refFiles).1)).map (fun f => f.path) := by
    intro hmem
    rw [List.mem_map] at hmem
    obtain ⟨g, hg_filter, hg_path⟩ := hmem
    have hg_mem : g ∈ checkFiles := (List.mem_filter.mp hg_filter).1
    have hg_dup : isDup (buildIndex refFiles).1 g = true := (List.mem_filter.mp hg_filter).2
    have hgf : g = f := List.inj_on_of_nodup_map hnodup hg_mem hf_mem hg_path
    rw [hgf, hnotdup] at hg_dup
    exact Bool.false_ne_true hg_dup
  constructor
  · rw [hm]; exact hmain
  · rw [hr]
    cases dryRun with
    | true => simp
    | false => simpa using hmain

/-- Witness for C5 at a one-file reference tree and a non-matching
one-file check tree. -/
theorem C5_digest_only_match_witness :
    (([⟨"c/y", "y", some 9⟩] : List FsFile).map (fun f => f.path)).Nodup
    ∧ (⟨"c/y", "y", some 9⟩ : FsFile) ∈ ([⟨"c/y", "y", some 9⟩] : List FsFile)
    ∧ ¬ digestMatchesRef [⟨"r/x", "x", some 7⟩] ⟨"c/y", "y", some 9⟩
    ∧ ((⟨"c/y", "y", some 9⟩ : FsFile).path
          ∉ (find_duplicates [⟨"r/x", "x", some 7⟩] [⟨"c/y", "y", some 9⟩] false).matchedPaths
      ∧ (⟨"c/y", "y", some 9⟩ : FsFile).path
          ∉ (find_duplicates [⟨"r/x", "x", some 7⟩] [⟨"c/y", "y", some 9⟩] false).removedPaths) := by
  have hno : ¬ digestMatchesRef [⟨"r/x", "x", some 7⟩] ⟨"c/y", "y", some 9⟩ := by
    rintro ⟨h, hh, r, hr, hrd⟩
    rw [List.mem_singleton] at hr
    subst hr
    have h9 : (9 : Nat) = h := by simpa using hh
    have h7 : (7 : Nat) = h := by simpa using hrd
    omega
  refine ⟨by decide, by decide, hno, ?_⟩
  exact (C5_digest_only_match [⟨"r/x", "x", some 7⟩] [⟨"c/y", "y", some 9⟩] false).2.2
    (by decide) ⟨"c/y", "y", some 9⟩ (by decide) hno

/-- C10: `deleted_count` never exceeds `found_count`, and every path
removed by `find_duplicates` belongs to a check-tree file whose content
digest occurs in the reference index. -/
theorem C10_deleted_le_found (refFiles checkFiles : List FsFile) (dryRun : Bool) :
    (find_duplicates refFiles checkFiles dryRun).deletedCount
        ≤ (find_duplicates refFiles checkFiles dryRun).foundCount
    ∧ ∀ p ∈ (find_duplicates refFiles checkFiles dryRun).removedPaths,
        ∃ f ∈ checkFiles, f.path = p ∧ digestMatchesRef refFiles f := by
  obtain ⟨hf, hm, hr, hd⟩ := find_duplicates_char refFiles checkFiles dryRun
  constructor
  · rw [hf, hd]
    cases dryRun with
    | true => simp
    | false => simp
  · intro p hp
    rw [hr] at hp
    cases dryRun with
    | true => simp at hp
    | false =>
      simp only [if_neg Bool.false_ne_true] at hp
      rw [List.mem_map] at hp
      obtain ⟨g, hg_filter, hg_path⟩ := hp
      refine ⟨g, (List.mem_filter.mp hg_filter).1, hg_path, ?_⟩
      exact (isDup_iff_digestMatchesRef refFiles g).mp (List.mem_filter.mp hg_filter).2

/-- C8: for the tree `A/B` with `B` empty and `A` containing only `B`, a
single real prune pass, visiting bottom-up with emptiness re-checked at
visit time, deletes both `B` and then `A`; and for every tree, walk
order and mode, the root `target_dir` itself is never deleted. -/
theorem C8_pruner_bottom_up :
    ((delete_empty_folders ⟨[[], ["A"], ["A", "B"]], []⟩ [["A", "B"], ["A"], []] false).fs.dirs
        = [[]]
      ∧ (delete_empty_folders
          ⟨[[], ["A"], ["A", "B"]], []⟩ [["A", "B"], ["A"], []] false).deletedCount = 2)
    ∧ ∀ (fs : PruneFS) (walk : List (List String)) (dryRun : Bool),
        [] ∈ fs.dirs → [] ∈ (delete_empty_folders fs walk dryRun).fs.dirs := by
  refine ⟨⟨by decide, by decide⟩, ?_⟩
  intro fs walk dryRun hroot
  exact prune_root_preserved dryRun walk ⟨fs, 0, ["Starting empty folder cleanup..."]⟩ hroot

/-- Witness for C8 at a concrete tree whose root is in the directory
set. -/
theorem C8_pruner_bottom_up_witness :
    ([] ∈ ([[], ["E"]] : List (List String)))
    ∧ [] ∈ (delete_empty_folders ⟨[[], ["E"]], []⟩ [["E"], []] false).fs.dirs :=
  ⟨by decide,
   C8_pruner_bottom_up.2 ⟨[[], ["E"]], []⟩ [["E"], []] false (by decide)⟩

/-- C9: for a decoded image of size `(w, h)` and scale `s > 0` the saved
image has dimensions exactly `(⌊w*s⌋, ⌊h*s⌋)`, and when the target
format is lossy (`jpeg`/`webp`) an `RGBA` or palette (`P`) image is
flattened to plain `RGB` before encoding, so the output carries no
transparency. -/
theorem C9_transcoder_dimensions (percentage : ℚ) (outputFormat : String) (img : PILImage)
    (hp : 0 < percentage) :
    (processSave percentage outputFormat img).width
        = (⌊(img.width : ℚ) * percentage⌋).toNat
    ∧ (processSave percentage outputFormat img).height
        = (⌊(img.height : ℚ) * percentage⌋).toNat
    ∧ ((strToLower outputFormat = "jpeg" ∨ strToLower outputFormat = "webp") →
        (img.mode = "RGBA" ∨ img.mode = "P") →
        (processSave percentage outputFormat img).mode = "RGB") := by
  have hw : pyInt ((img.width : ℚ) * percentage) = ⌊(img.width : ℚ) * percentage⌋ :=
    pyInt_eq_floor (mul_nonneg (by positivity) hp.le)
  have hh : pyInt ((img.height : ℚ) * percentage) = ⌊(img.height : ℚ) * percentage⌋ :=
    pyInt_eq_floor (mul_nonneg (by positivity) hp.le)
  unfold processSave flattenForSave
  split_ifs with h1 h2
  · exact ⟨by show (pyInt ((img.width : ℚ) * percentage)).toNat = _; rw [hw],
      by show (pyInt ((img.height : ℚ) * percentage)).toNat = _; rw [hh],
      fun _ _ => rfl⟩
  · exact ⟨by show (pyInt ((img.width : ℚ) * percentage)).toNat = _; rw [hw],
      by show (pyInt ((img.height : ℚ) * percentage)).toNat = _; rw [hh],
      fun hfmt hmode => absurd hmode h2⟩
  · exact ⟨by show (pyInt ((img.width : ℚ) * percentage)).toNat = _; rw [hw],
      by show (pyInt ((img.height : ℚ) * percentage)).toNat = _; rw [hh],
      fun hfmt hmode => absurd hfmt h1⟩

/-- Witness for C9 at scale 1/2, target `JPEG`, on a 5×3 `RGBA` image. -/
theorem C9_transcoder_dimensions_witness :
    (0 : ℚ) < 1 / 2
    ∧ ((processSave (1 / 2) "JPEG" ⟨5, 3, "RGBA"⟩).width
          = (⌊(((⟨5, 3, "RGBA"⟩ : PILImage).width : ℚ) * (1 / 2))⌋).toNat
      ∧ (processSave (1 / 2) "JPEG" ⟨5, 3, "RGBA"⟩).height
          = (⌊(((⟨5, 3, "RGBA"⟩ : PILImage).height : ℚ) * (1 / 2))⌋).toNat
      ∧ ((strToLower "JPEG" = "jpeg" ∨ strToLower "JPEG" = "webp") →
          ((⟨5, 3, "RGBA"⟩ : PILImage).mode = "RGBA" ∨ (⟨5, 3, "RGBA"⟩ : PILImage).mode = "P") →
          (processSave (1 / 2) "JPEG" ⟨5, 3, "RGBA"⟩).mode = "RGB")) :=
  ⟨by norm_num, C9_transcoder_dimensions (1 / 2) "JPEG" ⟨5, 3, "RGBA"⟩ (by norm_num)⟩

/-- C3: with `is_single_file = false` and an existing input directory,
`extract_gif_frames` raises `NameError` at the collection loop — the
loop iterates `os.walk(input_directory)` but the function parameter is
`input_path` and `input_directory` is defined nowhere — so no recursive
search happens and no frame count is ever returned. -/
theorem C3_extract_dir_mode_name_error (nameEndsWithGif : Bool) (gif : GifFile) :
    extract_gif_frames PathKind.directory nameEndsWithGif gif false
      = Except.error (PyExn.nameError "input_directory") := by
  unfold extract_gif_frames
  simp

/-- C4 counterexample: two transcoder runs — one over a single decodable
image, one over that image plus an undecodable file — return the same
value even though their failure counts differ (0 vs 1), so the single
integer the transcoder returns cannot be the claimed
`{succeededCount, failedCount, orderedLogLines}` shape. -/
theorem C4_uniform_shape_counterexample :
    (batch_process_images [⟨"a.png", some ⟨4, 4, "RGB"⟩⟩] 1 "png" 90).processedCount
      = (batch_process_images
          [⟨"a.png", some ⟨4, 4, "RGB"⟩⟩, ⟨"b.png", none⟩] 1 "png" 90).processedCount
    ∧ (batch_process_images [⟨"a.png", some ⟨4, 4, "RGB"⟩⟩] 1 "png" 90).exceptCount = 0
    ∧ (batch_process_images
        [⟨"a.png", some ⟨4, 4, "RGB"⟩⟩, ⟨"b.png", none⟩] 1 "png" 90).exceptCount = 1 := by
  refine ⟨by decide, by decide, by decide⟩

/-- C4 (amended): the mutating operations do not share one uniform
result shape — the transcoder returns only its success count (failures
appear in no returned component), the duplicate detector returns the
triple `(found_count, deleted_count, log)`, and the sorter returns only
the counter pair `(moved_count, skipped_count)` with no log lines, the
two counters covering exactly the files selected for moving. -/
theorem C4_result_shapes_amended :
    (∀ (files : List BatchFile) (p : ℚ) (fmt : String) (q : Nat),
        (batch_process_images files p fmt q).processedCount
          = ((files.filter (fun f => isSupportedName f.filename)).filter
              (fun f => f.image.isSome)).length)
    ∧ (∀ (refFiles checkFiles : List FsFile) (dryRun : Bool),
        (find_duplicates refFiles checkFiles dryRun).foundCount
          = (checkFiles.filter (isDup (buildIndex refFiles).1)).length
        ∧ (find_duplicates refFiles checkFiles dryRun).deletedCount
          = (if dryRun then 0
             else (checkFiles.filter (isDup (buildIndex refFiles).1)).length))
    ∧ (∀ (fs : List SFile) (ext : String),
        (sort_files fs ext).moved + (sort_files fs ext).skipped
          = (sortPlan fs ext).length) := by
  refine ⟨?_, ?_, ?_⟩
  · intro files p fmt q
    obtain ⟨h1, _⟩ := batch_fold_counts p fmt
      (files.filter (fun f => isSupportedName f.filename)) ⟨0, [], 0⟩
    simpa [batch_process_images] using h1
  · intro refs checks dryRun
    obtain ⟨h1, _, _, h4⟩ := find_duplicates_char refs checks dryRun
    exact ⟨h1, h4⟩
  · intro fs ext
    obtain ⟨h1, h2⟩ := sort_fold_counts (sortDestName ext) (sortPlan fs ext) ⟨fs, 0, 0⟩
    show (sort_files fs ext).moved + (sort_files fs ext).skipped = _
    rw [sort_files, h1, h2]
    simp

/-- Witness for C10 at a one-file reference tree and a matching one-file
check tree in real-run mode, where a path is actually removed. -/
theorem C10_deleted_le_found_witness :
    (find_duplicates [⟨"r/x", "x", some 7⟩] [⟨"c/z", "z", some 7⟩] false).deletedCount
        ≤ (find_duplicates [⟨"r/x", "x", some 7⟩] [⟨"c/z", "z", some 7⟩] false).foundCount
    ∧ "c/z" ∈ (find_duplicates [⟨"r/x", "x", some 7⟩] [⟨"c/z", "z", some 7⟩] false).removedPaths
    ∧ ∃ f ∈ ([⟨"c/z", "z", some 7⟩] : List FsFile),
        f.path = "c/z" ∧ digestMatchesRef [⟨"r/x", "x", some 7⟩] f :=
  ⟨(C10_deleted_le_found [⟨"r/x", "x", some 7⟩] [⟨"c/z", "z", some 7⟩] false).1,
   by decide,
   (C10_deleted_le_found [⟨"r/x", "x", some 7⟩] [⟨"c/z", "z", some 7⟩] false).2
     "c/z" (by decide)⟩
